import Mathlib

/-!
Verification of the story-telling web service (src/api/main.py).

Strings are embedded as `List Char`.  Python string primitives used by the
program (`str.strip`, `str.lower`, `str.splitlines`, `str.split(":", 1)`,
`str.replace(tok, "")`, substring membership) are modelled as executable
functions on `List Char` below; the program functions `parse_gemini_output`,
`strip_markers`, `call_gemini` and the two request handlers `generate` and
`revise` are then transcribed from the source.
-/

namespace StoryAgent

/-- Whitespace predicate of Python `str.strip()` (the Unicode whitespace
characters recognised by `str.isspace`; all ASCII whitespace is covered). -/
def pyIsSpace (c : Char) : Bool :=
  c ∈ [' ', '\t', '\n', '\x0b', '\x0c', '\r',
       '\x1c', '\x1d', '\x1e', '\x1f', '\x85', '\xa0',
       ' ', ' ', ' ', ' ', ' ', ' ', ' ',
       ' ', ' ', ' ', ' ', ' ',
       ' ', ' ', ' ', ' ', '　']

/-- Python `str.lstrip()`. -/
def lstrip (l : List Char) : List Char := l.dropWhile pyIsSpace

/-- Python `str.rstrip()`. -/
def rstrip (l : List Char) : List Char := (l.reverse.dropWhile pyIsSpace).reverse

/-- Python `str.strip()`. -/
def pyStrip (l : List Char) : List Char := rstrip (lstrip l)

/-- Line boundary characters of Python `str.splitlines()`
(besides the two-character boundary CR LF, handled separately). -/
def isNewlineChar (c : Char) : Bool :=
  c ∈ ['\n', '\r', '\x0b', '\x0c', '\x1c', '\x1d', '\x1e', '\x85',
       ' ', ' ']

/-- Fuel-indexed worker for `splitlines`: `cur` is the reversed current line.
The fuel only makes the recursion structural; it never runs out when it
starts at the length of the string. -/
def splitlinesFuel : Nat → List Char → List Char → List (List Char)
  | _, cur, [] => [cur.reverse]
  | 0, cur, s => [cur.reverse ++ s]
  | fuel + 1, cur, c :: cs =>
    if c = '\r' ∧ cs.head? = some '\n' then
      cur.reverse :: (if cs.tail.isEmpty then [] else splitlinesFuel fuel [] cs.tail)
    else if isNewlineChar c then
      cur.reverse :: (if cs.isEmpty then [] else splitlinesFuel fuel [] cs)
    else
      splitlinesFuel fuel (c :: cur) cs

/-- Worker for `splitlines` at adequate fuel. -/
def splitlinesGo (cur s : List Char) : List (List Char) :=
  splitlinesFuel s.length cur s

/-- Python `str.splitlines()`. -/
def splitlines (s : List Char) : List (List Char) :=
  match s with
  | [] => []
  | _ :: _ => splitlinesGo [] s

/-- Python `str.lower()` for a single character, ASCII range (the only
characters whose case matters in the program are ASCII letters). -/
def charLower (c : Char) : Char :=
  if c = 'A' then 'a' else if c = 'B' then 'b' else if c = 'C' then 'c'
  else if c = 'D' then 'd' else if c = 'E' then 'e' else if c = 'F' then 'f'
  else if c = 'G' then 'g' else if c = 'H' then 'h' else if c = 'I' then 'i'
  else if c = 'J' then 'j' else if c = 'K' then 'k' else if c = 'L' then 'l'
  else if c = 'M' then 'm' else if c = 'N' then 'n' else if c = 'O' then 'o'
  else if c = 'P' then 'p' else if c = 'Q' then 'q' else if c = 'R' then 'r'
  else if c = 'S' then 's' else if c = 'T' then 't' else if c = 'U' then 'u'
  else if c = 'V' then 'v' else if c = 'W' then 'w' else if c = 'X' then 'x'
  else if c = 'Y' then 'y' else if c = 'Z' then 'z' else c

/-- Python `str.lower()`. -/
def listLower (l : List Char) : List Char := l.map charLower

/-- Python `ln.split(":", 1)[1]`: the part of `ln` after the first colon;
`none` when `ln` has no colon (in which case the Python indexing raises
IndexError). -/
def afterFirstColon : List Char → Option (List Char)
  | [] => none
  | c :: cs => if c = ':' then some cs else afterFirstColon cs

/-- The guard `ln.strip().lower().startswith("title:")` of the parser. -/
def isTitleLine (ln : List Char) : Bool :=
  "title:".data.isPrefixOf (listLower (pyStrip ln))

/-- The guard `ln.strip().lower().startswith("story:")` of the parser. -/
def isStoryLine (ln : List Char) : Bool :=
  "story:".data.isPrefixOf (listLower (pyStrip ln))

/-- The loop state of `parse_gemini_output`: accumulated title, accumulated
story body, and whether body-capture mode is on (`mode == "story"`). -/
structure ParseState where
  title : List Char
  story : List Char
  mode : Bool
deriving DecidableEq

/-- One iteration of the line loop of `parse_gemini_output`;
`none` models the IndexError raised by `ln.split(":", 1)[1]`
when the line has no colon. -/
def parseLine (st : ParseState) (ln : List Char) : Option ParseState :=
  if isTitleLine ln then
    match afterFirstColon ln with
    | none => none
    | some rest => some ⟨pyStrip rest, st.story, false⟩
  else if isStoryLine ln then
    some ⟨st.title, st.story, true⟩
  else if st.mode then
    some ⟨st.title, st.story ++ ln ++ ['\n'], st.mode⟩
  else
    some st

/-- The line loop of `parse_gemini_output`, propagating a raised exception. -/
def runParse (st : ParseState) : List (List Char) → Option ParseState
  | [] => some st
  | ln :: L => (parseLine st ln).bind (fun st₂ => runParse st₂ L)

/-- Transcription of `parse_gemini_output` (src/api/main.py lines 244 to 271): returns
`(title, story_raw)`, or `none` when the loop raises. -/
def parse_gemini_output (text : List Char) : Option (List Char × List Char) :=
  (runParse ⟨[], [], false⟩ (splitlines text)).map (fun st => (st.title, pyStrip st.story))

/-- Fuel-indexed worker for Python `s.replace(pat, "")`: scan left to right,
on a match skip the matched occurrence and continue after it, otherwise copy
one character.  The fuel only makes the recursion structural; it never runs
out when it starts at the length of the string. -/
def removeAllFuel (pat : List Char) : Nat → List Char → List Char
  | _, [] => []
  | 0, s => s
  | fuel + 1, c :: cs =>
    if pat ≠ [] ∧ pat.isPrefixOf (c :: cs) then
      removeAllFuel pat fuel (cs.drop (pat.length - 1))
    else
      c :: removeAllFuel pat fuel cs

/-- Python `s.replace(pat, "")`: remove every occurrence of `pat`,
scanning left to right. -/
def removeAll (pat s : List Char) : List Char := removeAllFuel pat s.length s

/-- The four marker tokens of the fixed vocabulary. -/
def markers : List (List Char) :=
  ["[TWIST1]".data, "[TWIST2]".data, "[TWIST3]".data, "[TWIST4]".data]

/-- Transcription of `strip_markers` (src/api/main.py lines 273 to 275). -/
def strip_markers (story : List Char) : List Char :=
  pyStrip (removeAll "[TWIST4]".data (removeAll "[TWIST3]".data
    (removeAll "[TWIST2]".data (removeAll "[TWIST1]".data story))))

/-- The message of the exception re-raised by `call_gemini`
(src/api/main.py lines 233 to 242) when the model call fails with
underlying message `m`; Python substring tests are literal. -/
def call_gemini_error_msg (m : List Char) : List Char :=
  if "RATE_LIMIT_EXCEEDED".data <:+: m ∨ "429".data <:+: m then
    "API quota exceeded. Please check your Google AI Studio quota limits or try again later.".data
  else if "PERMISSION_DENIED".data <:+: m ∨ "403".data <:+: m then
    "API key doesn\x27t have permission. Please check your API key in Google AI Studio.".data
  else if "INVALID_ARGUMENT".data <:+: m ∨ "400".data <:+: m then
    "Invalid API request. Please check your API key configuration.".data
  else
    "Gemini API error: ".data ++ m

/-- The success path of `call_gemini`: `(resp.text or "").strip()`. -/
def call_gemini_success (text : List Char) : List Char := pyStrip text

/-- Outcome of the external model call: the reply text `resp.text`
(with `None` represented by the empty string), or the message of the
exception the call raised. -/
inductive ModelOutcome where
  | success (text : List Char)
  | failure (msg : List Char)

/-- Handler response: `ok` is the 200 payload with the three fields
`title`, `story_raw`, `story_clean`; `err` is the
`JSONResponse({"error": msg}, status_code=500)` payload, which has only
the `error` field. -/
inductive Response where
  | ok (title story_raw story_clean : List Char)
  | err (msg : List Char)
deriving DecidableEq

/-- The `story_raw` field of a response, when present. -/
def Response.storyRawField : Response → Option (List Char)
  | .ok _ r _ => some r
  | .err _ => none

/-- The `story_clean` field of a response, when present. -/
def Response.storyCleanField : Response → Option (List Char)
  | .ok _ _ c => some c
  | .err _ => none

/-- Whether the response is the HTTP 500 error payload. -/
def Response.isErr : Response → Bool
  | .ok _ _ _ => false
  | .err _ => true

/-- The error body of the handlers, `{"error": "Empty response from model"}`. -/
def emptyResponseMsg : List Char := "Empty response from model".data

/-- The `generate` handler (src/api/main.py lines 282 to 297), from the point
where the model call resolves: empty-reply check, parse, full-text fallback,
marker stripping; a model-call exception is caught and wrapped as
`{"error": f"{type(e).__name__}: {e}"}` where the re-raised exception has
type `Exception`. -/
def generate : ModelOutcome → Response
  | .failure m => Response.err ("Exception: ".data ++ call_gemini_error_msg m)
  | .success text =>
    if call_gemini_success text = [] then Response.err emptyResponseMsg
    else
      (parse_gemini_output (call_gemini_success text)).elim
        (Response.err "IndexError: list index out of range".data)
        (fun p =>
          Response.ok p.1 (if p.2 = [] then call_gemini_success text else p.2)
            (strip_markers (if p.2 = [] then call_gemini_success text else p.2)))

/-- The `revise` handler (src/api/main.py lines 299 to 313), from the point
where the model call resolves; the post-processing code is a verbatim copy
of the one in `generate`. -/
def revise : ModelOutcome → Response
  | .failure m => Response.err ("Exception: ".data ++ call_gemini_error_msg m)
  | .success text =>
    if call_gemini_success text = [] then Response.err emptyResponseMsg
    else
      (parse_gemini_output (call_gemini_success text)).elim
        (Response.err "IndexError: list index out of range".data)
        (fun p =>
          Response.ok p.1 (if p.2 = [] then call_gemini_success text else p.2)
            (strip_markers (if p.2 = [] then call_gemini_success text else p.2)))

/-- Join lines with the newline the parser appends after each captured line:
the story accumulator of the parse loop is `joinNL` of the captured lines. -/
def joinNL : List (List Char) → List Char
  | [] => []
  | l :: L => l ++ '\n' :: joinNL L

/-- Well-marked text: an interleaving of whole marker tokens satisfying `P`
and of text free of the character `[`.  This is the shape the prompt asks
the model to produce; on it the sequential replacements of `strip_markers`
remove exactly the marker blocks. -/
inductive WM (P : List Char → Prop) : List Char → Prop
  | nil : WM P []
  | gap {c : Char} {s : List Char} : c ≠ '[' → WM P s → WM P (c :: s)
  | block {m s : List Char} : P m → m ∈ markers → WM P s → WM P (m ++ s)

/- ------------------------------------------------------------------
Lemmas about Python strip
------------------------------------------------------------------ -/

theorem dropWhile_self_idem {α : Type} (p : α → Bool) :
    ∀ l : List α, List.dropWhile p (List.dropWhile p l) = List.dropWhile p l := by
  intro l
  induction l with
  | nil => rfl
  | cons a t ih =>
    by_cases h : p a
    · rw [List.dropWhile_cons_of_pos h]; exact ih
    · rw [List.dropWhile_cons_of_neg h, List.dropWhile_cons_of_neg h]

theorem lstrip_sublist (l : List Char) : List.Sublist (lstrip l) l :=
  List.dropWhile_sublist pyIsSpace

theorem rstrip_sublist (l : List Char) : List.Sublist (rstrip l) l := by
  have h₁ : List.Sublist (l.reverse.dropWhile pyIsSpace) l.reverse :=
    List.dropWhile_sublist pyIsSpace
  have h₂ := h₁.reverse
  rwa [List.reverse_reverse] at h₂

theorem pyStrip_subset {x : Char} {l : List Char} (h : x ∈ pyStrip l) : x ∈ l :=
  (lstrip_sublist l).subset ((rstrip_sublist (lstrip l)).subset h)

theorem dropWhile_suffix_self {α : Type} (p : α → Bool) :
    ∀ l : List α, List.dropWhile p l <:+ l := by
  intro l
  induction l with
  | nil => exact List.suffix_refl _
  | cons a t ih =>
    by_cases h : p a
    · rw [List.dropWhile_cons_of_pos h]
      exact ih.trans (List.suffix_cons a t)
    · rw [List.dropWhile_cons_of_neg h]

theorem rstrip_prefix (l : List Char) : rstrip l <+: l := by
  have h := List.reverse_prefix.mpr (dropWhile_suffix_self pyIsSpace l.reverse)
  rwa [List.reverse_reverse] at h

theorem head_not_space_of_lstrip_eq {a : Char} {t : List Char}
    (h : lstrip (a :: t) = a :: t) : pyIsSpace a = false := by
  cases hh : pyIsSpace a
  · rfl
  · exfalso
    have h₂ : lstrip (a :: t) = lstrip t := by
      unfold lstrip
      exact List.dropWhile_cons_of_pos hh
    have h₃ : (lstrip t).length ≤ t.length := (lstrip_sublist t).length_le
    rw [h₂] at h
    rw [h] at h₃
    simp at h₃

theorem lstrip_eq_self_of_head {a : Char} (t : List Char)
    (h : pyIsSpace a = false) : lstrip (a :: t) = a :: t := by
  unfold lstrip
  exact List.dropWhile_cons_of_neg (by simp [h])

theorem lstrip_idem (l : List Char) : lstrip (lstrip l) = lstrip l :=
  dropWhile_self_idem pyIsSpace l

theorem rstrip_idem (l : List Char) : rstrip (rstrip l) = rstrip l := by
  unfold rstrip
  rw [List.reverse_reverse, dropWhile_self_idem]

theorem lstrip_of_rstrip_of_lstrip (l : List Char)
    (h : lstrip l = l) : lstrip (rstrip l) = rstrip l := by
  rcases hr : rstrip l with _ | ⟨a, t⟩
  · rfl
  · have hpre : rstrip l <+: l := rstrip_prefix l
    rw [hr] at hpre
    rcases hpre with ⟨rest, hrest⟩
    have hl : l = a :: (t ++ rest) := by rw [← hrest]; simp
    have : pyIsSpace a = false := by
      apply @head_not_space_of_lstrip_eq a (t ++ rest)
      rw [← hl]
      exact h
    exact lstrip_eq_self_of_head t this

theorem pyStrip_idem (l : List Char) : pyStrip (pyStrip l) = pyStrip l := by
  unfold pyStrip
  rw [lstrip_of_rstrip_of_lstrip (lstrip l) (lstrip_idem l), rstrip_idem]

theorem lstrip_eq_self_of_pyStrip (l : List Char) (h : pyStrip l = l) :
    lstrip l = l := by
  have h₁ : (pyStrip l).length ≤ (lstrip l).length :=
    (rstrip_sublist (lstrip l)).length_le
  have h₂ : (lstrip l).length ≤ l.length := (lstrip_sublist l).length_le
  rw [h] at h₁
  exact (lstrip_sublist l).eq_of_length (by omega)

theorem rstrip_eq_self_of_pyStrip (l : List Char) (h : pyStrip l = l) :
    rstrip l = l := by
  have h₁ := lstrip_eq_self_of_pyStrip l h
  unfold pyStrip at h
  rw [h₁] at h
  exact h

theorem rstrip_append_right {b : List Char} (a : List Char)
    (hb : rstrip b = b) (hbne : b ≠ []) : rstrip (a ++ b) = a ++ b := by
  have hb₂ : b.reverse.dropWhile pyIsSpace = b.reverse := by
    have := congrArg List.reverse hb
    rwa [rstrip, List.reverse_reverse] at this
  rcases hrev : b.reverse with _ | ⟨c, t⟩
  · exact absurd (by simpa using congrArg List.reverse hrev) hbne
  · have hc : pyIsSpace c = false := by
      apply @head_not_space_of_lstrip_eq c t
      rw [lstrip, ← hrev]
      exact hb₂
    unfold rstrip
    rw [List.reverse_append, hrev, List.cons_append,
      List.dropWhile_cons_of_neg (by simp [hc]), ← List.cons_append, ← hrev,
      List.reverse_append, List.reverse_reverse, List.reverse_reverse]

theorem rstrip_append_space {c : Char} (l : List Char) (hc : pyIsSpace c = true) :
    rstrip (l ++ [c]) = rstrip l := by
  unfold rstrip
  rw [List.reverse_append]
  simp only [List.reverse_cons, List.reverse_nil, List.nil_append, List.cons_append,
    List.nil_append]
  rw [List.dropWhile_cons_of_pos hc]

theorem pyStrip_append_newline (l : List Char) :
    pyStrip (l ++ ['\n']) = pyStrip l := by
  unfold pyStrip lstrip
  rw [List.dropWhile_append]
  by_cases h : (l.dropWhile pyIsSpace).isEmpty
  · rw [if_pos h]
    have h₂ : l.dropWhile pyIsSpace = [] := by
      cases hh : l.dropWhile pyIsSpace
      · rfl
      · rw [hh] at h; simp at h
    rw [h₂]
    rfl
  · rw [if_neg h]
    exact rstrip_append_space _ (by decide)

/- ------------------------------------------------------------------
Lemmas about removeAll, the model of Python replace with empty string
------------------------------------------------------------------ -/

theorem removeAllFuel_nil (pat : List Char) (f : Nat) :
    removeAllFuel pat f [] = [] := by
  cases f <;> rfl

theorem removeAllFuel_succ_cons (pat : List Char) (f : Nat) (c : Char) (cs : List Char) :
    removeAllFuel pat (f + 1) (c :: cs) =
      if pat ≠ [] ∧ pat.isPrefixOf (c :: cs) then
        removeAllFuel pat f (cs.drop (pat.length - 1))
      else
        c :: removeAllFuel pat f cs := rfl

theorem removeAllFuel_congr (pat : List Char) :
    ∀ f₁ f₂ s, s.length ≤ f₁ → s.length ≤ f₂ →
      removeAllFuel pat f₁ s = removeAllFuel pat f₂ s := by
  intro f₁
  induction f₁ with
  | zero =>
    intro f₂ s h₁ h₂
    have hs : s = [] := List.eq_nil_of_length_eq_zero (by omega)
    subst hs
    rw [removeAllFuel_nil, removeAllFuel_nil]
  | succ f ih =>
    intro f₂ s h₁ h₂
    cases s with
    | nil => rw [removeAllFuel_nil, removeAllFuel_nil]
    | cons c cs =>
      cases f₂ with
      | zero => simp at h₂
      | succ f₂ =>
        rw [removeAllFuel_succ_cons, removeAllFuel_succ_cons]
        have hlen : (c :: cs).length = cs.length + 1 := rfl
        by_cases hcond : pat ≠ [] ∧ pat.isPrefixOf (c :: cs)
        · rw [if_pos hcond, if_pos hcond]
          have hd : (cs.drop (pat.length - 1)).length ≤ cs.length := by
            rw [List.length_drop]; omega
          exact ih _ _ (by rw [hlen] at h₁; omega) (by rw [hlen] at h₂; omega)
        · rw [if_neg hcond, if_neg hcond]
          have hih := ih f₂ cs (by rw [hlen] at h₁; omega) (by rw [hlen] at h₂; omega)
          rw [hih]

theorem removeAll_nil (pat : List Char) : removeAll pat [] = [] := rfl

theorem removeAll_cons (pat : List Char) (c : Char) (cs : List Char) :
    removeAll pat (c :: cs) =
      if pat ≠ [] ∧ pat.isPrefixOf (c :: cs) then
        removeAll pat (cs.drop (pat.length - 1))
      else
        c :: removeAll pat cs := by
  unfold removeAll
  rw [show (c :: cs).length = cs.length + 1 from rfl, removeAllFuel_succ_cons]
  by_cases hcond : pat ≠ [] ∧ pat.isPrefixOf (c :: cs)
  · rw [if_pos hcond, if_pos hcond]
    exact removeAllFuel_congr pat _ _ _ (by rw [List.length_drop]; omega) (le_refl _)
  · rw [if_neg hcond, if_neg hcond]

theorem removeAll_gap {pat : List Char} (hp : pat.head? = some '[')
    {g : List Char} (hg : ∀ c ∈ g, c ≠ '[') :
    ∀ s, removeAll pat (g ++ s) = g ++ removeAll pat s := by
  induction g with
  | nil => intro s; simp
  | cons c g ih =>
    intro s
    rw [List.cons_append, removeAll_cons]
    have hnp : ¬(pat ≠ [] ∧ pat.isPrefixOf (c :: (g ++ s))) := by
      rintro ⟨hne, hpre⟩
      rw [ List.isPrefixOf_iff_prefix] at hpre
      obtain ⟨pt, hpat⟩ : ∃ pt, pat = '[' :: pt := by
        cases pat with
        | nil => simp at hp
        | cons p0 pt =>
          simp only [List.head?_cons, Option.some.injEq] at hp
          exact ⟨pt, by rw [hp]⟩
      rw [hpat] at hpre
      have hc := (List.cons_prefix_cons.mp hpre).1
      exact hg c (List.mem_cons_self c g) hc.symm
    rw [if_neg hnp, ih (fun x hx => hg x (List.mem_cons_of_mem c hx)) s,
      List.cons_append]

theorem removeAll_self {pat : List Char} (hp : pat ≠ []) (s : List Char) :
    removeAll pat (pat ++ s) = removeAll pat s := by
  cases pat with
  | nil => exact absurd rfl hp
  | cons p0 pt =>
    rw [List.cons_append, removeAll_cons]
    have hcond : (p0 :: pt) ≠ [] ∧ (p0 :: pt).isPrefixOf (p0 :: (pt ++ s)) := by
      refine ⟨by simp, ?_⟩
      rw [ List.isPrefixOf_iff_prefix, ← List.cons_append]
      exact List.prefix_append _ _
    rw [if_pos hcond, show (p0 :: pt).length - 1 = pt.length by simp, List.drop_left]

theorem removeAll_no_bracket {pat : List Char} (hp : pat.head? = some '[')
    {s : List Char} (hs : ∀ c ∈ s, c ≠ '[') : removeAll pat s = s := by
  have h := removeAll_gap hp hs []
  rw [List.append_nil, removeAll_nil, List.append_nil] at h
  exact h

/-- The shape facts about the four marker tokens: length eight, opening
bracket only at the head. -/
theorem marker_shape : ∀ m ∈ markers,
    m.length = 8 ∧ m.head? = some '[' ∧ ∀ c ∈ m.tail, c ≠ '[' := by decide

theorem removeAll_other_marker {p m : List Char} (hp : p ∈ markers)
    (hm : m ∈ markers) (hne : p ≠ m) (s : List Char) :
    removeAll p (m ++ s) = m ++ removeAll p s := by
  obtain ⟨hml, hmh, hmt⟩ := marker_shape m hm
  obtain ⟨hpl, hph, hpt⟩ := marker_shape p hp
  cases m with
  | nil => simp at hmh
  | cons c t =>
    have hc : c = '[' := by
      simpa using hmh
    rw [List.cons_append, removeAll_cons]
    have hnp : ¬(p ≠ [] ∧ p.isPrefixOf (c :: (t ++ s))) := by
      rintro ⟨-, hpre⟩
      rw [ List.isPrefixOf_iff_prefix] at hpre
      have hpeq : p = (c :: (t ++ s)).take p.length := List.prefix_iff_eq_take.mp hpre
      rw [hpl, ← List.cons_append] at hpeq
      have htake : ((c :: t) ++ s).take 8 = c :: t := by
        have h := List.take_left (c :: t) s
        rwa [show (c :: t).length = 8 from hml] at h
      rw [htake] at hpeq
      exact hne hpeq
    rw [if_neg hnp]
    have hgap := @removeAll_gap p hph t (fun x hx => hmt x hx) s
    rw [hgap, List.cons_append]

/- ------------------------------------------------------------------
Well-marked stories: the four replacements remove exactly the blocks
------------------------------------------------------------------ -/

theorem WM_removeAll {P : List Char → Prop} {s : List Char} (h : WM P s)
    {p : List Char} (hp : p ∈ markers) :
    WM (fun m => P m ∧ m ≠ p) (removeAll p s) := by
  induction h with
  | nil => rw [removeAll_nil]; exact WM.nil
  | @gap c s₂ hc hw ih =>
    obtain ⟨-, hph, -⟩ := marker_shape p hp
    have hstep : removeAll p (c :: s₂) = c :: removeAll p s₂ := by
      have h₂ := @removeAll_gap p hph [c] (by simpa using hc) s₂
      simpa using h₂
    rw [hstep]
    exact WM.gap hc ih
  | @block m s₂ hm hmem hw ih =>
    by_cases he : m = p
    · subst he
      obtain ⟨hml, -, -⟩ := marker_shape m hmem
      rw [removeAll_self (by intro hnil; rw [hnil] at hml; simp at hml) s₂]
      exact ih
    · rw [removeAll_other_marker hp hmem (fun hq => he hq.symm) s₂]
      exact WM.block ⟨hm, he⟩ hmem ih

theorem WM_unsat {P : List Char → Prop} (hP : ∀ m, ¬ P m) :
    ∀ {s : List Char}, WM P s → '[' ∉ s := by
  intro s h
  induction h with
  | nil => simp
  | @gap c s₂ hc hw ih =>
    intro hmem
    rcases List.mem_cons.mp hmem with h₁ | h₂
    · exact hc h₁.symm
    · exact ih h₂
  | @block m s₂ hm hmem hw ih => exact absurd hm (hP m)

theorem strip_markers_no_bracket {s : List Char}
    (h : WM (fun m => m ∈ markers) s) : '[' ∉ strip_markers s := by
  have h₁ := WM_removeAll h (show "[TWIST1]".data ∈ markers by decide)
  have h₂ := WM_removeAll h₁ (show "[TWIST2]".data ∈ markers by decide)
  have h₃ := WM_removeAll h₂ (show "[TWIST3]".data ∈ markers by decide)
  have h₄ := WM_removeAll h₃ (show "[TWIST4]".data ∈ markers by decide)
  have hnone : ∀ m, ¬((((m ∈ markers ∧ m ≠ "[TWIST1]".data) ∧ m ≠ "[TWIST2]".data)
      ∧ m ≠ "[TWIST3]".data) ∧ m ≠ "[TWIST4]".data) := by
    rintro m ⟨⟨⟨⟨hmem, hn1⟩, hn2⟩, hn3⟩, hn4⟩
    simp only [markers, List.mem_cons, List.not_mem_nil, or_false] at hmem
    rcases hmem with h | h | h | h
    · exact hn1 h
    · exact hn2 h
    · exact hn3 h
    · exact hn4 h
  have hout := WM_unsat hnone h₄
  intro hmem
  exact hout (pyStrip_subset hmem)

theorem strip_markers_idem_of_WM {s : List Char}
    (h : WM (fun m => m ∈ markers) s) :
    strip_markers (strip_markers s) = strip_markers s := by
  have hnb := strip_markers_no_bracket h
  have hnb₂ : ∀ c ∈ strip_markers s, c ≠ '[' := fun c hc he => hnb (he ▸ hc)
  have hstep : ∀ pat : List Char, pat.head? = some '[' →
      removeAll pat (strip_markers s) = strip_markers s :=
    fun pat hp => removeAll_no_bracket hp hnb₂
  calc strip_markers (strip_markers s)
      = pyStrip (removeAll "[TWIST4]".data (removeAll "[TWIST3]".data
          (removeAll "[TWIST2]".data (removeAll "[TWIST1]".data
            (strip_markers s))))) := rfl
    _ = pyStrip (strip_markers s) := by
          rw [hstep _ (by decide), hstep _ (by decide), hstep _ (by decide),
            hstep _ (by decide)]
    _ = strip_markers s := pyStrip_idem _

/- ------------------------------------------------------------------
Lemmas about splitlines
------------------------------------------------------------------ -/

theorem splitlinesFuel_nil (f : Nat) (cur : List Char) :
    splitlinesFuel f cur [] = [cur.reverse] := by
  cases f <;> rfl

theorem splitlinesFuel_succ_cons (f : Nat) (cur : List Char) (c : Char) (cs : List Char) :
    splitlinesFuel (f + 1) cur (c :: cs) =
      if c = '\r' ∧ cs.head? = some '\n' then
        cur.reverse :: (if cs.tail.isEmpty then [] else splitlinesFuel f [] cs.tail)
      else if isNewlineChar c then
        cur.reverse :: (if cs.isEmpty then [] else splitlinesFuel f [] cs)
      else
        splitlinesFuel f (c :: cur) cs := rfl

theorem splitlinesFuel_congr :
    ∀ f₁ f₂ cur (s : List Char), s.length ≤ f₁ → s.length ≤ f₂ →
      splitlinesFuel f₁ cur s = splitlinesFuel f₂ cur s := by
  intro f₁
  induction f₁ with
  | zero =>
    intro f₂ cur s h₁ h₂
    have hs : s = [] := List.eq_nil_of_length_eq_zero (by omega)
    subst hs
    rw [splitlinesFuel_nil, splitlinesFuel_nil]
  | succ f ih =>
    intro f₂ cur s h₁ h₂
    cases s with
    | nil => rw [splitlinesFuel_nil, splitlinesFuel_nil]
    | cons c cs =>
      cases f₂ with
      | zero => simp at h₂
      | succ f₂ =>
        rw [splitlinesFuel_succ_cons, splitlinesFuel_succ_cons]
        have hlen : (c :: cs).length = cs.length + 1 := rfl
        rw [hlen] at h₁ h₂
        by_cases hx : c = '\r' ∧ cs.head? = some '\n'
        · rw [if_pos hx, if_pos hx]
          by_cases he : cs.tail.isEmpty
          · rw [if_pos he, if_pos he]
          · rw [if_neg he, if_neg he]
            have ht : cs.tail.length ≤ cs.length := by
              cases cs <;> simp
            rw [ih f₂ [] cs.tail (by omega) (by omega)]
        · rw [if_neg hx, if_neg hx]
          by_cases hn : isNewlineChar c
          · rw [if_pos hn, if_pos hn]
            by_cases he : cs.isEmpty
            · rw [if_pos he, if_pos he]
            · rw [if_neg he, if_neg he, ih f₂ [] cs (by omega) (by omega)]
          · rw [if_neg hn, if_neg hn, ih f₂ (c :: cur) cs (by omega) (by omega)]

theorem splitlinesGo_nil (cur : List Char) : splitlinesGo cur [] = [cur.reverse] := rfl

theorem splitlinesGo_cons (cur : List Char) (c : Char) (cs : List Char) :
    splitlinesGo cur (c :: cs) =
      if c = '\r' ∧ cs.head? = some '\n' then
        cur.reverse :: (if cs.tail.isEmpty then [] else splitlinesGo [] cs.tail)
      else if isNewlineChar c then
        cur.reverse :: (if cs.isEmpty then [] else splitlinesGo [] cs)
      else
        splitlinesGo (c :: cur) cs := by
  unfold splitlinesGo
  rw [show (c :: cs).length = cs.length + 1 from rfl, splitlinesFuel_succ_cons]
  by_cases hx : c = '\r' ∧ cs.head? = some '\n'
  · rw [if_pos hx, if_pos hx]
    by_cases he : cs.tail.isEmpty
    · rw [if_pos he, if_pos he]
    · rw [if_neg he, if_neg he]
      have ht : cs.tail.length ≤ cs.length := by cases cs <;> simp
      rw [splitlinesFuel_congr cs.length cs.tail.length [] cs.tail ht (le_refl _)]
  · rw [if_neg hx, if_neg hx]

theorem splitlines_eq_go (s : List Char) (hs : s ≠ []) :
    splitlines s = splitlinesGo [] s := by
  cases s with
  | nil => exact absurd rfl hs
  | cons a t => rfl

theorem splitlinesGo_break :
    ∀ l : List Char, (∀ c ∈ l, isNewlineChar c = false) →
      ∀ cur rest, splitlinesGo cur (l ++ '\n' :: rest) =
        (cur.reverse ++ l) :: splitlines rest := by
  intro l
  induction l with
  | nil =>
    intro _ cur rest
    simp only [List.nil_append]
    rw [splitlinesGo_cons]
    have h1 : ¬('\n' = '\r' ∧ rest.head? = some '\n') := by
      rintro ⟨h, -⟩
      exact absurd h (by decide)
    rw [if_neg h1, if_pos (show isNewlineChar '\n' = true by decide), List.append_nil]
    congr 1
    cases rest with
    | nil => rfl
    | cons a t => rfl
  | cons c l ih =>
    intro hl cur rest
    rw [List.cons_append, splitlinesGo_cons]
    have hc : isNewlineChar c = false := hl c (List.mem_cons_self c l)
    have h1 : ¬(c = '\r' ∧ ('\n' :: rest).head? = some '\n' ∨
        c = '\r' ∧ (l ++ '\n' :: rest).head? = some '\n') := by
      rintro (⟨hr, -⟩ | ⟨hr, -⟩) <;> (rw [hr] at hc; exact absurd hc (by decide))
    have h1' : ¬(c = '\r' ∧ (l ++ '\n' :: rest).head? = some '\n') := by
      rintro ⟨hr, -⟩
      rw [hr] at hc
      exact absurd hc (by decide)
    rw [if_neg h1', if_neg (by simp [hc])]
    rw [ih (fun x hx => hl x (List.mem_cons_of_mem c hx)) (c :: cur) rest]
    simp [List.reverse_cons]

theorem splitlines_break {l : List Char} (hl : ∀ c ∈ l, isNewlineChar c = false)
    (rest : List Char) :
    splitlines (l ++ '\n' :: rest) = l :: splitlines rest := by
  rw [splitlines_eq_go _ (by simp), splitlinesGo_break l hl [] rest]
  simp

theorem joinNL_splitlinesGo :
    ∀ s : List Char, (∀ c ∈ s, isNewlineChar c = true → c = '\n') →
      ∀ cur, joinNL (splitlinesGo cur s) = cur.reverse ++ s ++ ['\n'] ∨
             joinNL (splitlinesGo cur s) = cur.reverse ++ s := by
  intro s
  induction s with
  | nil =>
    intro _ cur
    left
    rw [splitlinesGo_nil]
    simp [joinNL]
  | cons c cs ih =>
    intro h cur
    rw [splitlinesGo_cons]
    have h1 : ¬(c = '\r' ∧ cs.head? = some '\n') := by
      rintro ⟨hr, -⟩
      have h₂ := h c (List.mem_cons_self c cs) (by rw [hr]; decide)
      rw [hr] at h₂
      exact absurd h₂ (by decide)
    rw [if_neg h1]
    by_cases h2 : isNewlineChar c
    · have hcn : c = '\n' := h c (List.mem_cons_self c cs) h2
      rw [if_pos h2]
      cases cs with
      | nil =>
        right
        subst hcn
        simp [joinNL]
      | cons a t =>
        have hrec := ih (fun x hx hn => h x (List.mem_cons_of_mem c hx) hn) []
        subst hcn
        rw [if_neg (by simp)]
        rw [joinNL]
        simp only [List.reverse_nil, List.nil_append] at hrec
        rcases hrec with hL | hR
        · left
          rw [hL]
          simp
        · right
          rw [hR]
    · rw [if_neg h2]
      have hrec := ih (fun x hx hn => h x (List.mem_cons_of_mem c hx) hn) (c :: cur)
      rcases hrec with hL | hR
      · left
        rw [hL]
        simp
      · right
        rw [hR]
        simp

theorem pyStrip_joinNL_splitlines (s : List Char)
    (h : ∀ c ∈ s, isNewlineChar c = true → c = '\n') :
    pyStrip (joinNL (splitlines s)) = pyStrip s := by
  cases s with
  | nil => rfl
  | cons a t =>
    rw [splitlines_eq_go _ (by simp)]
    rcases joinNL_splitlinesGo (a :: t) h [] with hL | hR
    · rw [hL]
      simp only [List.reverse_nil, List.nil_append]
      exact pyStrip_append_newline _
    · rw [hR]
      simp

theorem infix_append_left {l t : List Char} (a : List Char) (h : l <:+: t) :
    l <:+: a ++ t := by
  obtain ⟨p, q, hpq⟩ := h
  exact ⟨a ++ p, q, by rw [← hpq]; simp⟩

theorem mem_splitlinesGo_infix :
    ∀ (n : Nat) (s : List Char), s.length ≤ n → ∀ cur ln, ln ∈ splitlinesGo cur s →
      ln <:+: cur.reverse ++ s := by
  intro n
  induction n with
  | zero =>
    intro s hlen cur ln hmem
    have hs : s = [] := List.eq_nil_of_length_eq_zero (by omega)
    subst hs
    rw [splitlinesGo_nil] at hmem
    have he : ln = cur.reverse := by simpa using hmem
    exact ⟨[], [], by simp [he]⟩
  | succ n ih =>
    intro s hlen cur ln hmem
    cases s with
    | nil =>
      rw [splitlinesGo_nil] at hmem
      have he : ln = cur.reverse := by simpa using hmem
      exact ⟨[], [], by simp [he]⟩
    | cons c cs =>
      have hlen₂ : cs.length ≤ n := by simp at hlen; omega
      rw [splitlinesGo_cons] at hmem
      by_cases h1 : c = '\r' ∧ cs.head? = some '\n'
      · rw [if_pos h1] at hmem
        rcases List.mem_cons.mp hmem with he | hrest
        · exact ⟨[], c :: cs, by simp [he]⟩
        · by_cases he2 : cs.tail.isEmpty
          · rw [if_pos he2] at hrest
            simp at hrest
          · rw [if_neg he2] at hrest
            have htl : cs.tail.length ≤ n := by
              have : cs.tail.length ≤ cs.length := by cases cs <;> simp
              omega
            have hx := ih cs.tail htl [] ln hrest
            simp only [List.reverse_nil, List.nil_append] at hx
            apply infix_append_left
            cases cs with
            | nil =>
              simp only [List.tail_nil] at hx
              obtain ⟨p, q, hpq⟩ := hx
              have hln : ln = [] := by
                rcases List.append_eq_nil.mp hpq with ⟨h₃, h₄⟩
                exact (List.append_eq_nil.mp h₃).2
              exact ⟨[], [c], by simp [hln]⟩
            | cons a t =>
              simp only [List.tail_cons] at hx
              exact infix_append_left [c, a] hx
      · rw [if_neg h1] at hmem
        by_cases h2 : isNewlineChar c
        · rw [if_pos h2] at hmem
          rcases List.mem_cons.mp hmem with he | hrest
          · exact ⟨[], c :: cs, by simp [he]⟩
          · by_cases he2 : cs.isEmpty
            · rw [if_pos he2] at hrest
              simp at hrest
            · rw [if_neg he2] at hrest
              have hx := ih cs hlen₂ [] ln hrest
              simp only [List.reverse_nil, List.nil_append] at hx
              exact infix_append_left cur.reverse (infix_append_left [c] hx)
        · rw [if_neg h2] at hmem
          have hx := ih cs hlen₂ (c :: cur) ln hmem
          rwa [List.reverse_cons, List.append_assoc, List.singleton_append] at hx

theorem mem_splitlines_infix {s ln : List Char} (h : ln ∈ splitlines s) :
    ln <:+: s := by
  cases s with
  | nil => simp [splitlines] at h
  | cons a t =>
    have hx := mem_splitlinesGo_infix (a :: t).length (a :: t) (le_refl _) [] ln h
    simpa using hx

/- ------------------------------------------------------------------
Lemmas about the parser
------------------------------------------------------------------ -/

theorem charLower_eq_colon {c : Char} (h : charLower c = ':') : c = ':' := by
  by_cases h1 : c = 'A'
  · subst h1; exact absurd h (by decide)
  by_cases h2 : c = 'B'
  · subst h2; exact absurd h (by decide)
  by_cases h3 : c = 'C'
  · subst h3; exact absurd h (by decide)
  by_cases h4 : c = 'D'
  · subst h4; exact absurd h (by decide)
  by_cases h5 : c = 'E'
  · subst h5; exact absurd h (by decide)
  by_cases h6 : c = 'F'
  · subst h6; exact absurd h (by decide)
  by_cases h7 : c = 'G'
  · subst h7; exact absurd h (by decide)
  by_cases h8 : c = 'H'
  · subst h8; exact absurd h (by decide)
  by_cases h9 : c = 'I'
  · subst h9; exact absurd h (by decide)
  by_cases h10 : c = 'J'
  · subst h10; exact absurd h (by decide)
  by_cases h11 : c = 'K'
  · subst h11; exact absurd h (by decide)
  by_cases h12 : c = 'L'
  · subst h12; exact absurd h (by decide)
  by_cases h13 : c = 'M'
  · subst h13; exact absurd h (by decide)
  by_cases h14 : c = 'N'
  · subst h14; exact absurd h (by decide)
  by_cases h15 : c = 'O'
  · subst h15; exact absurd h (by decide)
  by_cases h16 : c = 'P'
  · subst h16; exact absurd h (by decide)
  by_cases h17 : c = 'Q'
  · subst h17; exact absurd h (by decide)
  by_cases h18 : c = 'R'
  · subst h18; exact absurd h (by decide)
  by_cases h19 : c = 'S'
  · subst h19; exact absurd h (by decide)
  by_cases h20 : c = 'T'
  · subst h20; exact absurd h (by decide)
  by_cases h21 : c = 'U'
  · subst h21; exact absurd h (by decide)
  by_cases h22 : c = 'V'
  · subst h22; exact absurd h (by decide)
  by_cases h23 : c = 'W'
  · subst h23; exact absurd h (by decide)
  by_cases h24 : c = 'X'
  · subst h24; exact absurd h (by decide)
  by_cases h25 : c = 'Y'
  · subst h25; exact absurd h (by decide)
  by_cases h26 : c = 'Z'
  · subst h26; exact absurd h (by decide)
  unfold charLower at h
  rw [if_neg h1, if_neg h2, if_neg h3, if_neg h4, if_neg h5, if_neg h6,
    if_neg h7, if_neg h8, if_neg h9, if_neg h10, if_neg h11, if_neg h12,
    if_neg h13, if_neg h14, if_neg h15, if_neg h16, if_neg h17, if_neg h18,
    if_neg h19, if_neg h20, if_neg h21, if_neg h22, if_neg h23, if_neg h24,
    if_neg h25, if_neg h26] at h
  exact h

theorem colon_mem_of_isTitleLine {ln : List Char} (h : isTitleLine ln = true) :
    ':' ∈ ln := by
  unfold isTitleLine at h
  rw [ List.isPrefixOf_iff_prefix] at h
  have hc : ':' ∈ listLower (pyStrip ln) := h.subset (by decide)
  obtain ⟨x, hx, he⟩ := List.mem_map.mp hc
  exact pyStrip_subset ((charLower_eq_colon he) ▸ hx)

theorem afterFirstColon_some_of_mem {ln : List Char} (h : ':' ∈ ln) :
    ∃ r, afterFirstColon ln = some r := by
  induction ln with
  | nil => simp at h
  | cons c cs ih =>
    by_cases hc : c = ':'
    · exact ⟨cs, by simp [afterFirstColon, hc]⟩
    · rcases List.mem_cons.mp h with he | hm
      · exact absurd he.symm hc
      · obtain ⟨r, hr⟩ := ih hm
        exact ⟨r, by simp [afterFirstColon, hc, hr]⟩

theorem parseLine_title {st : ParseState} {ln r : List Char}
    (ht : isTitleLine ln = true) (hr : afterFirstColon ln = some r) :
    parseLine st ln = some ⟨pyStrip r, st.story, false⟩ := by
  simp [parseLine, ht, hr]

theorem parseLine_story {st : ParseState} {ln : List Char}
    (ht : isTitleLine ln = false) (hs : isStoryLine ln = true) :
    parseLine st ln = some ⟨st.title, st.story, true⟩ := by
  simp [parseLine, ht, hs]

theorem parseLine_capture {st : ParseState} {ln : List Char}
    (ht : isTitleLine ln = false) (hs : isStoryLine ln = false)
    (hm : st.mode = true) :
    parseLine st ln = some ⟨st.title, st.story ++ ln ++ ['\n'], true⟩ := by
  simp [parseLine, ht, hs, hm]

theorem parseLine_inert {st : ParseState} {ln : List Char}
    (ht : isTitleLine ln = false) (hs : isStoryLine ln = false)
    (hm : st.mode = false) :
    parseLine st ln = some st := by
  simp [parseLine, ht, hs, hm]

theorem parseLine_isSome (st : ParseState) (ln : List Char) :
    ∃ st₂, parseLine st ln = some st₂ := by
  by_cases ht : isTitleLine ln = true
  · obtain ⟨r, hr⟩ := afterFirstColon_some_of_mem (colon_mem_of_isTitleLine ht)
    exact ⟨_, parseLine_title ht hr⟩
  · have ht₂ : isTitleLine ln = false := by
      cases h : isTitleLine ln
      · rfl
      · exact absurd h ht
    by_cases hs : isStoryLine ln = true
    · exact ⟨_, parseLine_story ht₂ hs⟩
    · have hs₂ : isStoryLine ln = false := by
        cases h : isStoryLine ln
        · rfl
        · exact absurd h hs
      cases hm : st.mode
      · exact ⟨_, parseLine_inert ht₂ hs₂ hm⟩
      · exact ⟨_, parseLine_capture ht₂ hs₂ hm⟩

theorem runParse_cons_some {st st₁ : ParseState} {ln : List Char}
    {L : List (List Char)} (h : parseLine st ln = some st₁) :
    runParse st (ln :: L) = runParse st₁ L := by
  rw [show runParse st (ln :: L) = (parseLine st ln).bind (fun st₂ => runParse st₂ L) from rfl,
    h, Option.some_bind]

theorem runParse_cons_none {st : ParseState} {ln : List Char}
    {L : List (List Char)} (h : parseLine st ln = none) :
    runParse st (ln :: L) = none := by
  rw [show runParse st (ln :: L) = (parseLine st ln).bind (fun st₂ => runParse st₂ L) from rfl,
    h, Option.none_bind]

theorem runParse_isSome (L : List (List Char)) :
    ∀ st, ∃ st₂, runParse st L = some st₂ := by
  induction L with
  | nil => intro st; exact ⟨st, rfl⟩
  | cons ln L ih =>
    intro st
    obtain ⟨st₁, h₁⟩ := parseLine_isSome st ln
    obtain ⟨st₂, h₂⟩ := ih st₁
    refine ⟨st₂, ?_⟩
    rw [runParse_cons_some h₁]
    exact h₂

theorem parse_gemini_output_isSome (text : List Char) :
    ∃ p, parse_gemini_output text = some p := by
  obtain ⟨st, hst⟩ := runParse_isSome (splitlines text) ⟨[], [], false⟩
  refine ⟨(st.title, pyStrip st.story), ?_⟩
  unfold parse_gemini_output
  rw [hst, Option.map_some']

theorem runParse_no_story (L : List (List Char))
    (hL : ∀ ln ∈ L, isStoryLine ln = false) :
    ∀ st : ParseState, st.mode = false →
      ∃ t, runParse st L = some ⟨t, st.story, false⟩ := by
  induction L with
  | nil =>
    intro st hm
    refine ⟨st.title, ?_⟩
    have hst : st = ⟨st.title, st.story, false⟩ := by
      obtain ⟨t, s, m⟩ := st
      simp only at hm
      rw [hm]
    rw [runParse, ← hst]
  | cons ln L ih =>
    intro st hm
    have hs := hL ln (List.mem_cons_self ln L)
    by_cases ht : isTitleLine ln = true
    · obtain ⟨r, hr⟩ := afterFirstColon_some_of_mem (colon_mem_of_isTitleLine ht)
      obtain ⟨t₂, h₂⟩ :=
        ih (fun x hx => hL x (List.mem_cons_of_mem ln hx)) ⟨pyStrip r, st.story, false⟩ rfl
      refine ⟨t₂, ?_⟩
      rw [runParse_cons_some (parseLine_title ht hr)]
      exact h₂
    · have ht₂ : isTitleLine ln = false := by
        cases h : isTitleLine ln
        · rfl
        · exact absurd h ht
      obtain ⟨t₂, h₂⟩ := ih (fun x hx => hL x (List.mem_cons_of_mem ln hx)) st hm
      refine ⟨t₂, ?_⟩
      rw [runParse_cons_some (parseLine_inert ht₂ hs hm)]
      exact h₂

theorem runParse_inert (L : List (List Char))
    (hL : ∀ ln ∈ L, isTitleLine ln = false ∧ isStoryLine ln = false) :
    ∀ st : ParseState, st.mode = false → runParse st L = some st := by
  induction L with
  | nil => intro st _; rfl
  | cons ln L ih =>
    intro st hm
    obtain ⟨ht, hs⟩ := hL ln (List.mem_cons_self ln L)
    rw [runParse_cons_some (parseLine_inert ht hs hm)]
    exact ih (fun x hx => hL x (List.mem_cons_of_mem ln hx)) st hm

theorem runParse_capture (L : List (List Char))
    (hL : ∀ ln ∈ L, isTitleLine ln = false ∧ isStoryLine ln = false) :
    ∀ st : ParseState, st.mode = true →
      runParse st L = some ⟨st.title, st.story ++ joinNL L, true⟩ := by
  induction L with
  | nil =>
    intro st hm
    have hst : st = ⟨st.title, st.story ++ joinNL [], true⟩ := by
      obtain ⟨t, s, m⟩ := st
      simp only at hm
      rw [hm]
      simp [joinNL]
    rw [runParse, ← hst]
  | cons ln L ih =>
    intro st hm
    obtain ⟨ht, hs⟩ := hL ln (List.mem_cons_self ln L)
    rw [runParse_cons_some (parseLine_capture ht hs hm)]
    rw [ih (fun x hx => hL x (List.mem_cons_of_mem ln hx)) ⟨st.title, st.story ++ ln ++ ['\n'], true⟩ rfl]
    simp [joinNL]

theorem runParse_append (L₁ L₂ : List (List Char)) :
    ∀ st, runParse st (L₁ ++ L₂) =
      (runParse st L₁).bind (fun st₂ => runParse st₂ L₂) := by
  induction L₁ with
  | nil => intro st; rfl
  | cons ln L ih =>
    intro st
    rw [List.cons_append]
    cases hp : parseLine st ln with
    | none => rw [runParse_cons_none hp, runParse_cons_none hp]; rfl
    | some st₁ => rw [runParse_cons_some hp, runParse_cons_some hp, ih st₁]

/- ------------------------------------------------------------------
The Title line of a well-formed output
------------------------------------------------------------------ -/

theorem afterFirstColon_titleX (X : List Char) :
    afterFirstColon ("Title: ".data ++ X) = some (' ' :: X) := rfl

theorem pyStrip_space_cons {X : List Char} (hX2 : pyStrip X = X) :
    pyStrip (' ' :: X) = X := by
  have hls : lstrip (' ' :: X) = X := by
    unfold lstrip
    rw [List.dropWhile_cons_of_pos (by decide)]
    exact lstrip_eq_self_of_pyStrip X hX2
  show rstrip (lstrip (' ' :: X)) = X
  rw [hls]
  exact rstrip_eq_self_of_pyStrip X hX2

theorem isTitleLine_titleX {X : List Char} (hX2 : pyStrip X = X) :
    isTitleLine ("Title: ".data ++ X) = true := by
  by_cases hX : X = []
  · subst hX
    decide
  · have hpy : pyStrip ("Title: ".data ++ X) = "Title: ".data ++ X := by
      have hl : lstrip ("Title: ".data ++ X) = "Title: ".data ++ X :=
        lstrip_eq_self_of_head ("itle: ".data ++ X) (by decide)
      show rstrip (lstrip ("Title: ".data ++ X)) = "Title: ".data ++ X
      rw [hl]
      exact rstrip_append_right _ (rstrip_eq_self_of_pyStrip X hX2) hX
    unfold isTitleLine
    rw [hpy]
    rw [ List.isPrefixOf_iff_prefix]
    show "title:".data <+: listLower ("Title: ".data ++ X)
    unfold listLower
    rw [List.map_append]
    rw [show List.map charLower "Title: ".data = "title: ".data from by decide]
    rw [show ("title: ".data : List Char) = "title:".data ++ [' '] from by decide]
    rw [List.append_assoc]
    exact List.prefix_append _ _

theorem parseLine_titleX {X : List Char} (hX2 : pyStrip X = X) (st : ParseState) :
    parseLine st ("Title: ".data ++ X) = some ⟨X, st.story, false⟩ := by
  rw [parseLine_title (isTitleLine_titleX hX2) (afterFirstColon_titleX X)]
  rw [pyStrip_space_cons hX2]

/- ------------------------------------------------------------------
Lemmas about the handlers
------------------------------------------------------------------ -/

theorem hand_eq (o : ModelOutcome) : revise o = generate o := by
  cases o <;> rfl

theorem generate_failure_eq (m : List Char) :
    generate (ModelOutcome.failure m) =
      Response.err ("Exception: ".data ++ call_gemini_error_msg m) := rfl

theorem generate_success_empty {text : List Char} (h : pyStrip text = []) :
    generate (ModelOutcome.success text) = Response.err emptyResponseMsg := by
  simp only [generate, call_gemini_success]
  rw [if_pos h]

theorem generate_success_parsed {text t s0 : List Char} (hne : pyStrip text ≠ [])
    (hp : parse_gemini_output (pyStrip text) = some (t, s0)) :
    generate (ModelOutcome.success text) =
      Response.ok t (if s0 = [] then pyStrip text else s0)
        (strip_markers (if s0 = [] then pyStrip text else s0)) := by
  simp only [generate, call_gemini_success]
  rw [if_neg hne, hp, Option.elim_some]

theorem generate_success_nonempty {text : List Char} (hne : pyStrip text ≠ []) :
    ∃ t s0, parse_gemini_output (pyStrip text) = some (t, s0) ∧
      generate (ModelOutcome.success text) =
        Response.ok t (if s0 = [] then pyStrip text else s0)
          (strip_markers (if s0 = [] then pyStrip text else s0)) := by
  obtain ⟨⟨t, s0⟩, hp⟩ := parse_gemini_output_isSome (pyStrip text)
  exact ⟨t, s0, hp, generate_success_parsed hne hp⟩

theorem generate_success_err {text msg : List Char}
    (h : generate (ModelOutcome.success text) = Response.err msg) :
    msg = emptyResponseMsg := by
  by_cases he : pyStrip text = []
  · rw [generate_success_empty he] at h
    simp only [Response.err.injEq] at h
    exact h.symm
  · obtain ⟨t, s0, hp, hgen⟩ := generate_success_nonempty he
    rw [hgen] at h
    simp at h

theorem generate_ok_inv {outcome : ModelOutcome} {t r c : List Char}
    (hok : generate outcome = Response.ok t r c) :
    c = strip_markers r ∧ r ≠ [] ∧
      ∃ text, outcome = ModelOutcome.success text ∧ pyStrip text ≠ [] := by
  cases outcome with
  | failure m => rw [generate_failure_eq] at hok; simp at hok
  | success text =>
    by_cases he : pyStrip text = []
    · rw [generate_success_empty he] at hok
      simp at hok
    · obtain ⟨t₂, s₂, hp, hgen⟩ := generate_success_nonempty he
      rw [hgen] at hok
      simp only [Response.ok.injEq] at hok
      obtain ⟨ht, hr, hc⟩ := hok
      refine ⟨by rw [← hc, hr], ?_, text, rfl, he⟩
      by_cases hs : s₂ = []
      · rw [← hr, if_pos hs]
        exact he
      · rw [← hr, if_neg hs]
        exact hs

/-- The marker tokens each contain the opening bracket. -/
theorem marker_has_bracket : ∀ m ∈ markers, '[' ∈ m := by decide

/- ------------------------------------------------------------------
Claims
------------------------------------------------------------------ -/

/-- C5: the output parser is total: for every input string it returns a
`(title, storyRaw)` pair and never raises; in particular `afterFirstColon`
succeeds on every line whose trimmed lowercase form starts with `title:`,
because such a line necessarily contains a colon. -/
theorem parse_total (text : List Char) :
    (parse_gemini_output text).isSome = true ∧
    ∀ ln : List Char, isTitleLine ln = false ∨ (afterFirstColon ln).isSome = true := by
  constructor
  · obtain ⟨p, hp⟩ := parse_gemini_output_isSome text
    rw [hp]
    rfl
  · intro ln
    cases ht : isTitleLine ln
    · exact Or.inl rfl
    · obtain ⟨r, hr⟩ := afterFirstColon_some_of_mem (colon_mem_of_isTitleLine ht)
      rw [hr]
      exact Or.inr rfl

theorem parse_total_witness :
    (parse_gemini_output "Title: a".data).isSome = true :=
  (parse_total "Title: a".data).1

/-- C9: the Revise handler applies the identical post-processing pipeline to
the model reply as the Generate handler: on every model outcome the two
handlers return the same response. -/
theorem revise_pipeline_eq_generate :
    ∀ outcome : ModelOutcome, generate outcome = revise outcome :=
  fun o => (hand_eq o).symm

/-- C6: a model call that succeeds with empty (or whitespace-only, hence
empty after trimming) text makes both handlers return the HTTP 500 payload
whose only field is the error message "Empty response from model". -/
theorem empty_model_text_yields_error (text : List Char) (h : pyStrip text = []) :
    generate (ModelOutcome.success text) = Response.err emptyResponseMsg ∧
    revise (ModelOutcome.success text) = Response.err emptyResponseMsg := by
  refine ⟨generate_success_empty h, ?_⟩
  rw [hand_eq]
  exact generate_success_empty h

theorem empty_model_text_yields_error_witness :
    generate (ModelOutcome.success "  \n ".data) = Response.err emptyResponseMsg ∧
    revise (ModelOutcome.success "  \n ".data) = Response.err emptyResponseMsg :=
  empty_model_text_yields_error "  \n ".data (by decide)

/-- C8: every response of Generate or Revise is either a success payload
carrying all three fields, with `story_clean` computed from `story_raw` by
the sanitizer and a non-empty `story_raw` obtained from a non-empty model
reply, or an error payload carrying only an error message; a failed model
call or an empty reply always yields the error payload. -/
theorem no_partial_results (outcome : ModelOutcome) :
    (∀ t r c, generate outcome = Response.ok t r c ∨
        revise outcome = Response.ok t r c →
      c = strip_markers r ∧ r ≠ [] ∧
        ∃ text, outcome = ModelOutcome.success text ∧ pyStrip text ≠ []) ∧
    (∀ m, outcome = ModelOutcome.failure m →
      (generate outcome).isErr = true ∧ (revise outcome).isErr = true) ∧
    (∀ text, outcome = ModelOutcome.success text → pyStrip text = [] →
      (generate outcome).isErr = true ∧ (revise outcome).isErr = true) := by
  refine ⟨?_, ?_, ?_⟩
  · intro t r c hok
    have hok₂ : generate outcome = Response.ok t r c := by
      rcases hok with h | h
      · exact h
      · rwa [hand_eq] at h
    exact generate_ok_inv hok₂
  · intro m hm
    subst hm
    rw [hand_eq, generate_failure_eq]
    exact ⟨rfl, rfl⟩
  · intro text ht he
    subst ht
    rw [hand_eq, generate_success_empty he]
    exact ⟨rfl, rfl⟩

theorem no_partial_results_witness : "hi".data = strip_markers "hi".data :=
  ((no_partial_results (ModelOutcome.success "hi".data)).1 [] "hi".data "hi".data
    (Or.inl (by decide))).1

/-- C7 (amended): every handler-level failure is surfaced as the HTTP 500
payload with a single error message; a failed model call produces the body
"Exception: m" where m is the translated message of `call_gemini`, and the
empty-reply failure produces the fixed body "Empty response from model"
with no kind prefix at all.  The taxonomy names of the specification
(RateLimited, PermissionDenied, InvalidRequest, UpstreamError,
EmptyResponse) never appear as a kind label. -/
theorem error_payload_shape :
    (∀ m : List Char,
        generate (ModelOutcome.failure m) =
          Response.err ("Exception: ".data ++ call_gemini_error_msg m) ∧
        revise (ModelOutcome.failure m) =
          Response.err ("Exception: ".data ++ call_gemini_error_msg m)) ∧
    (∀ text msg : List Char,
        generate (ModelOutcome.success text) = Response.err msg ∨
        revise (ModelOutcome.success text) = Response.err msg →
        msg = emptyResponseMsg) := by
  constructor
  · intro m
    refine ⟨generate_failure_eq m, ?_⟩
    rw [hand_eq]
    exact generate_failure_eq m
  · intro text msg h
    have h₂ : generate (ModelOutcome.success text) = Response.err msg := by
      rcases h with h | h
      · exact h
      · rwa [hand_eq] at h
    exact generate_success_err h₂

theorem error_payload_shape_witness :
    ("Empty response from model".data : List Char) = emptyResponseMsg :=
  error_payload_shape.2 "".data "Empty response from model".data (Or.inl (by decide))

/-- C7 counterexample: the empty-reply error body is not of the form
"ErrorKind: message" for any kind of the taxonomy named in the
specification. -/
theorem error_payload_lacks_taxonomy_kind :
    generate (ModelOutcome.success "  ".data) =
      Response.err "Empty response from model".data ∧
    ¬("RateLimited: ".data <+: "Empty response from model".data) ∧
    ¬("PermissionDenied: ".data <+: "Empty response from model".data) ∧
    ¬("InvalidRequest: ".data <+: "Empty response from model".data) ∧
    ¬("UpstreamError: ".data <+: "Empty response from model".data) ∧
    ¬("EmptyResponse: ".data <+: "Empty response from model".data) :=
  ⟨by decide, by decide, by decide, by decide, by decide, by decide⟩

/-- C1 (amended): when the raw story is an interleaving of whole marker
tokens and bracket-free text, the cleaned story of a successful response
contains no occurrence of any of the four marker tokens. -/
theorem clean_story_no_markers_of_wellMarked (outcome : ModelOutcome)
    (t r c : List Char)
    (hok : generate outcome = Response.ok t r c ∨
      revise outcome = Response.ok t r c)
    (hwm : WM (fun m => m ∈ markers) r) :
    ∀ m ∈ markers, ¬(m <:+: c) := by
  have hok₂ : generate outcome = Response.ok t r c := by
    rcases hok with h | h
    · exact h
    · rwa [hand_eq] at h
  have hc : c = strip_markers r := (generate_ok_inv hok₂).1
  subst hc
  intro m hm hinf
  exact strip_markers_no_bracket hwm (hinf.subset (marker_has_bracket m hm))

theorem clean_story_no_markers_witness :
    ¬("[TWIST1]".data <:+: "abcd".data) := by
  have he : "ab[TWIST1]cd".data = 'a' :: 'b' :: ("[TWIST1]".data ++ "cd".data) := by decide
  have hwm : WM (fun m => m ∈ markers) "ab[TWIST1]cd".data := by
    rw [he]
    exact WM.gap (by decide) (WM.gap (by decide) (WM.block (by decide) (by decide)
      (WM.gap (by decide) (WM.gap (by decide) WM.nil))))
  exact clean_story_no_markers_of_wellMarked
    (ModelOutcome.success "Story:\nab[TWIST1]cd".data)
    [] "ab[TWIST1]cd".data "abcd".data (Or.inl (by decide)) hwm
    "[TWIST1]".data (by decide)

/-- C1 counterexample: the sanitizer output can contain a marker, because
removing one occurrence can splice its neighbours into a new occurrence. -/
theorem strip_markers_reintroduces_marker :
    strip_markers "[[TWIST1]TWIST1]".data = "[TWIST1]".data ∧
    "[TWIST1]".data <:+: strip_markers "[[TWIST1]TWIST1]".data :=
  ⟨by decide, by decide⟩

/-- C2 (amended): the sanitizer is idempotent on raw stories that are an
interleaving of whole marker tokens and bracket-free text. -/
theorem strip_markers_idempotent_of_wellMarked (s : List Char)
    (h : WM (fun m => m ∈ markers) s) :
    strip_markers (strip_markers s) = strip_markers s :=
  strip_markers_idem_of_WM h

theorem strip_markers_idempotent_witness :
    strip_markers (strip_markers "x [TWIST2] y".data) =
      strip_markers "x [TWIST2] y".data := by
  have he : "x [TWIST2] y".data = 'x' :: ' ' :: ("[TWIST2]".data ++ " y".data) := by decide
  refine strip_markers_idempotent_of_wellMarked _ ?_
  rw [he]
  exact WM.gap (by decide) (WM.gap (by decide) (WM.block (by decide) (by decide)
    (WM.gap (by decide) (WM.gap (by decide) WM.nil))))

/-- C2 counterexample: the sanitizer is not idempotent in general; a
spliced marker left by the first pass is removed by the second. -/
theorem strip_markers_not_idempotent :
    strip_markers (strip_markers "[TWI[TWIST2]ST1]".data) ≠
      strip_markers "[TWI[TWIST2]ST1]".data := by decide

/-- C3: for well-formed model output of the shape Title: X, blank line,
Story: line, body Y — with X a single already-trimmed line, the line
breaks of Y all plain newlines, and no line of Y looking like a title or
story directive — parsing yields exactly the title X and the trimmed body
Y. -/
theorem parse_wellformed_output (X Y : List Char)
    (hX1 : ∀ c ∈ X, isNewlineChar c = false)
    (hX2 : pyStrip X = X)
    (hY1 : ∀ c ∈ Y, isNewlineChar c = true → c = '\n')
    (hY2 : ∀ ln ∈ splitlines Y, isTitleLine ln = false ∧ isStoryLine ln = false) :
    parse_gemini_output ("Title: ".data ++ X ++ "\n\nStory:\n".data ++ Y) =
      some (X, pyStrip Y) := by
  have hshape : "Title: ".data ++ X ++ "\n\nStory:\n".data ++ Y =
      ("Title: ".data ++ X) ++ '\n' :: ([] ++ '\n' :: ("Story:".data ++ '\n' :: Y)) := by
    rw [List.nil_append, List.append_assoc]
    rfl
  have hbf : ∀ c ∈ "Title: ".data ++ X, isNewlineChar c = false := by
    intro c hc
    rcases List.mem_append.mp hc with h | h
    · have hlit : ∀ c ∈ "Title: ".data, isNewlineChar c = false := by decide
      exact hlit c h
    · exact hX1 c h
  have hsl : splitlines ("Title: ".data ++ X ++ "\n\nStory:\n".data ++ Y) =
      ("Title: ".data ++ X) :: [] :: "Story:".data :: splitlines Y := by
    rw [hshape, splitlines_break hbf, splitlines_break (by simp),
      splitlines_break (by decide)]
  unfold parse_gemini_output
  rw [hsl]
  rw [runParse_cons_some (parseLine_titleX hX2 ⟨[], [], false⟩)]
  rw [runParse_cons_some (@parseLine_inert ⟨X, [], false⟩ []
    (by decide) (by decide) rfl)]
  rw [runParse_cons_some (@parseLine_story ⟨X, [], false⟩ "Story:".data
    (by decide) (by decide))]
  rw [runParse_capture (splitlines Y) hY2 ⟨X, [], true⟩ rfl]
  rw [Option.map_some']
  show some (X, pyStrip ([] ++ joinNL (splitlines Y))) = some (X, pyStrip Y)
  rw [List.nil_append, pyStrip_joinNL_splitlines Y hY1]

theorem parse_wellformed_witness :
    parse_gemini_output
        "Title: The Last Light\n\nStory:\n[TWIST1] She opened the door.\nIt was raining.".data =
      some ("The Last Light".data,
        pyStrip "[TWIST1] She opened the door.\nIt was raining.".data) := by
  have h := parse_wellformed_output "The Last Light".data
    "[TWIST1] She opened the door.\nIt was raining.".data
    (by decide) (by decide) (by decide) (by decide)
  rwa [show "Title: ".data ++ "The Last Light".data ++ "\n\nStory:\n".data ++
      "[TWIST1] She opened the door.\nIt was raining.".data =
      "Title: The Last Light\n\nStory:\n[TWIST1] She opened the door.\nIt was raining.".data
    from rfl] at h

/-- C4: when the trimmed model reply is non-empty and none of its lines is a
story directive, the parser returns an empty raw story and the handler
fallback makes the returned story_raw the whole trimmed reply (and
story_clean its sanitized form). -/
theorem fallback_full_text_when_no_story_line (text : List Char)
    (h1 : pyStrip text ≠ [])
    (h2 : ∀ ln ∈ splitlines (pyStrip text), isStoryLine ln = false) :
    (parse_gemini_output (pyStrip text)).map Prod.snd = some [] ∧
    (generate (ModelOutcome.success text)).storyRawField = some (pyStrip text) ∧
    (generate (ModelOutcome.success text)).storyCleanField =
      some (strip_markers (pyStrip text)) := by
  obtain ⟨t, hrun⟩ := runParse_no_story (splitlines (pyStrip text)) h2 ⟨[], [], false⟩ rfl
  have hp : parse_gemini_output (pyStrip text) = some (t, []) := by
    unfold parse_gemini_output
    rw [hrun, Option.map_some']
    rfl
  have hgen := generate_success_parsed h1 hp
  rw [if_pos rfl] at hgen
  refine ⟨by rw [hp]; rfl, ?_, ?_⟩
  · rw [hgen]
    rfl
  · rw [hgen]
    rfl

theorem fallback_full_text_witness :
    (parse_gemini_output (pyStrip "hello world".data)).map Prod.snd = some [] ∧
    (generate (ModelOutcome.success "hello world".data)).storyRawField =
      some (pyStrip "hello world".data) ∧
    (generate (ModelOutcome.success "hello world".data)).storyCleanField =
      some (strip_markers (pyStrip "hello world".data)) :=
  fallback_full_text_when_no_story_line "hello world".data (by decide) (by decide)

/-- C10 (amended): when the trimmed reply is non-empty, has a title line
(the last such line having remainder r after its first colon) and no story
line, the handler falls back to the full trimmed reply as story_raw, so the
title line is still contained in story_raw while its remainder was
simultaneously extracted as the title; the cleaned story however need not
contain the title line, since markers inside it are stripped. -/
theorem fallback_retains_title_line (text : List Char)
    (l₁ l₂ : List (List Char)) (ℓ r : List Char)
    (h0 : pyStrip text ≠ [])
    (hsplit : splitlines (pyStrip text) = l₁ ++ ℓ :: l₂)
    (hT : isTitleLine ℓ = true)
    (hr : afterFirstColon ℓ = some r)
    (hl₂ : ∀ ln ∈ l₂, isTitleLine ln = false)
    (hS : ∀ ln ∈ splitlines (pyStrip text), isStoryLine ln = false) :
    generate (ModelOutcome.success text) =
      Response.ok (pyStrip r) (pyStrip text) (strip_markers (pyStrip text)) ∧
    ℓ <:+: pyStrip text := by
  have hS₁ : ∀ ln ∈ l₁, isStoryLine ln = false := fun ln h =>
    hS ln (by rw [hsplit]; exact List.mem_append.mpr (Or.inl h))
  have hS₂ : ∀ ln ∈ l₂, isStoryLine ln = false := fun ln h =>
    hS ln (by rw [hsplit]; exact List.mem_append.mpr (Or.inr (List.mem_cons_of_mem ℓ h)))
  obtain ⟨t₀, hrun₁⟩ := runParse_no_story l₁ hS₁ ⟨[], [], false⟩ rfl
  have hrun₁' : runParse ⟨[], [], false⟩ l₁ = some ⟨t₀, [], false⟩ := hrun₁
  have hline : parseLine ⟨t₀, [], false⟩ ℓ = some ⟨pyStrip r, [], false⟩ :=
    parseLine_title hT hr
  have hrest : runParse ⟨pyStrip r, [], false⟩ l₂ = some ⟨pyStrip r, [], false⟩ :=
    runParse_inert l₂ (fun ln h => ⟨hl₂ ln h, hS₂ ln h⟩) _ rfl
  have hp : parse_gemini_output (pyStrip text) = some (pyStrip r, []) := by
    unfold parse_gemini_output
    rw [hsplit, runParse_append, hrun₁', Option.some_bind,
      runParse_cons_some hline, hrest, Option.map_some']
    rfl
  have hgen := generate_success_parsed h0 hp
  rw [if_pos rfl] at hgen
  refine ⟨hgen, ?_⟩
  exact mem_splitlines_infix
    (by rw [hsplit]; exact List.mem_append.mpr (Or.inr (List.mem_cons_self ℓ l₂)))

theorem fallback_retains_title_line_witness :
    generate (ModelOutcome.success "Title: Hope\nOnce upon a time.".data) =
      Response.ok (pyStrip " Hope".data)
        (pyStrip "Title: Hope\nOnce upon a time.".data)
        (strip_markers (pyStrip "Title: Hope\nOnce upon a time.".data)) ∧
    "Title: Hope".data <:+: pyStrip "Title: Hope\nOnce upon a time.".data :=
  fallback_retains_title_line "Title: Hope\nOnce upon a time.".data
    [] ["Once upon a time.".data] "Title: Hope".data " Hope".data
    (by decide) (by decide) (by decide) (by decide) (by decide) (by decide)

/-- C10 counterexample: when the title line itself carries a marker, the
cleaned story no longer contains that title line, although story_raw
does. -/
theorem title_line_absent_from_clean :
    generate (ModelOutcome.success "Title: [TWIST1]x".data) =
      Response.ok "[TWIST1]x".data "Title: [TWIST1]x".data "Title: x".data ∧
    ¬("Title: [TWIST1]x".data <:+: "Title: x".data) :=
  ⟨by decide, by decide⟩

end StoryAgent
